import Mathlib

/-!
Verification of the AutoMouse pointer-automation class (src/AutoMouse.py).

Modelling conventions for the shallow embedding:
* Python machine integers are `Int`, Python floats are exact rationals `Rat`;
  `int(x)` is truncation toward zero (`pyTrunc`), `x // y` on integers is
  floor division (`Int.fdiv`).
* `math.sin` is a transcendental float function with no exact embedding, so
  it is an explicit function parameter `sin : Rat -> Rat`; likewise the noise
  function `_perlin` feeding the jitter is a parameter `noise` wherever a path
  is built, constrained to its proved range [0, 1) when a claim needs it.
  The one exact fact used about the real `_perlin` is that `sin 0 = 0`, hence
  `_perlin 0 = 0`, which holds exactly for IEEE sin as well.
* `random.randint(-30, 30)` and `random.uniform(a, b)` are parameters
  (`offset`, `pause`) constrained by their documented ranges.
* The observable behaviour of a call is its trace of external effects
  (`SetCursorPos`, `SendInput`, `time.sleep`) in order, as a `List Event`;
  the interrupt flag read at step `i` of the playback loop is an oracle
  `flagAt : Nat -> Bool`, so that a concurrent `stop()` is the oracle turning
  true from some index on.
-/

namespace AutoMouse

/-- Screen coordinate pair, Python tuple of machine ints. -/
abbrev Point := ℤ × ℤ

/-- Python `int(q)` on a real value: truncation toward zero. -/
def pyTrunc (q : ℚ) : ℤ := if 0 ≤ q then ⌊q⌋ else ⌈q⌉

/-- Value interpolated by `move_to` for waypoint `i` of the linear (non-human)
path, per axis: `start + (end - start) * i / steps` before `int` truncation
(src/AutoMouse.py lines 114-120). -/
def linVal (s e : ℤ) (i steps : ℕ) : ℚ :=
  (s : ℚ) + ((e : ℚ) - (s : ℚ)) * (i : ℚ) / (steps : ℚ)

/-- The linear path built by `move_to` when `human=False`
(src/AutoMouse.py lines 113-120). -/
def linear_path (s e : Point) (steps : ℕ) : List Point :=
  (List.range (steps + 1)).map fun i =>
    (pyTrunc (linVal s.1 e.1 i steps), pyTrunc (linVal s.2 e.2 i steps))

/-- One axis of `_bezier` (src/AutoMouse.py lines 73-78). -/
def bez1 (a b c d t : ℚ) : ℚ :=
  (1 - t) ^ 3 * a + 3 * (1 - t) ^ 2 * t * b + 3 * (1 - t) * t ^ 2 * c + t ^ 3 * d

/-- Cubic Bezier interpolation `_bezier` (src/AutoMouse.py lines 73-78). -/
def bezier (p0 p1 p2 p3 : ℚ × ℚ) (t : ℚ) : ℚ × ℚ :=
  (bez1 p0.1 p1.1 p2.1 p3.1 t, bez1 p0.2 p1.2 p2.2 p3.2 t)

/-- Python float modulo by 1 in exact arithmetic: the fractional part. -/
def pyMod1 (q : ℚ) : ℚ := q - ⌊q⌋

/-- The noise source `_perlin` (src/AutoMouse.py lines 80-82):
`(sin(x * 12.9898) * 43758.5453) % 1`, with `math.sin` abstracted as the
function parameter `sin`. -/
def perlin (sin : ℚ → ℚ) (x : ℚ) : ℚ :=
  pyMod1 (sin (x * (129898 / 10000)) * (437585453 / 10000))

/-- Midpoint of start and end computed by `_human_path` with Python floor
division (src/AutoMouse.py line 87). -/
def midOf (s e : Point) : Point :=
  (Int.fdiv (s.1 + e.1) 2, Int.fdiv (s.2 + e.2) 2)

/-- The jitter displacement added to both axes at parameter `t` by
`_human_path`: `(noise(t * 100) * 2 - 1) * 2` (src/AutoMouse.py lines 97-99). -/
def jitter2 (noise : ℚ → ℚ) (t : ℚ) : ℚ := (noise (t * 100) * 2 - 1) * 2

/-- Waypoint `i` of `_human_path` (src/AutoMouse.py lines 93-100): evaluate the
cubic Bezier through start, the two offset control points and end at
`t = i / steps`, add the jitter to both axes, truncate to int. -/
def human_point (noise : ℚ → ℚ) (offset : ℤ) (s e : Point) (steps i : ℕ) : Point :=
  (pyTrunc (bez1 (s.1 : ℚ) (((midOf s e).1 + offset : ℤ) : ℚ)
      (((midOf s e).1 - offset : ℤ) : ℚ) (e.1 : ℚ) ((i : ℚ) / (steps : ℚ)) +
      jitter2 noise ((i : ℚ) / (steps : ℚ))),
   pyTrunc (bez1 (s.2 : ℚ) (((midOf s e).2 + offset : ℤ) : ℚ)
      (((midOf s e).2 - offset : ℤ) : ℚ) (e.2 : ℚ) ((i : ℚ) / (steps : ℚ)) +
      jitter2 noise ((i : ℚ) / (steps : ℚ))))

/-- The list of waypoints built by `_human_path` (src/AutoMouse.py lines
84-101), with the `random.randint(-30, 30)` control-point offset and the
noise function as parameters. -/
def human_path (noise : ℚ → ℚ) (offset : ℤ) (s e : Point) (steps : ℕ) : List Point :=
  (List.range (steps + 1)).map (human_point noise offset s e steps)

/-- A noise function that is constantly 0.  Faithful to the real `_perlin` at
`x = 0`: `sin 0 = 0` exactly (also in floats), so `_perlin 0 = 0 % 1 = 0`. -/
def noiseZero : ℚ → ℚ := fun _ => 0

/-- A noise function constantly 1/2, a value in the range [0, 1) of `_perlin`;
it makes the jitter term vanish. -/
def noiseHalf : ℚ → ℚ := fun _ => 1 / 2

/-- The step count normalization of `move_to`:
`steps = max(1, int(duration * fps))` (src/AutoMouse.py line 108). -/
def stepsOf (duration : ℚ) (fps : ℕ) : ℕ := max 1 (pyTrunc (duration * (fps : ℚ))).toNat

/-- Win32 flag constants (src/AutoMouse.py lines 8-15). -/
def MOUSEEVENTF_LEFTDOWN : ℕ := 0x0002

/-- Win32 flag constant. -/
def MOUSEEVENTF_LEFTUP : ℕ := 0x0004

/-- Win32 flag constant. -/
def MOUSEEVENTF_RIGHTDOWN : ℕ := 0x0008

/-- Win32 flag constant. -/
def MOUSEEVENTF_RIGHTUP : ℕ := 0x0010

/-- Win32 flag constant. -/
def MOUSEEVENTF_MIDDLEDOWN : ℕ := 0x0020

/-- Win32 flag constant. -/
def MOUSEEVENTF_MIDDLEUP : ℕ := 0x0040

/-- Win32 flag constant. -/
def MOUSEEVENTF_WHEEL : ℕ := 0x0800

/-- Win32 flag constant. -/
def MOUSEEVENTF_MOVE : ℕ := 0x0001

/-- One external effect of the class, in the order effects happen:
a `SetCursorPos` call (already clamped), a `SendInput` injection with its
flags and wheel payload, or a `time.sleep`. -/
inductive Event where
  | setPos : Point → Event
  | send : ℕ → ℤ → Event
  | sleep : ℚ → Event
deriving DecidableEq

/-- The clamping of `_clamp` to the screen `[0, w-1] x [0, h-1]`
(src/AutoMouse.py lines 43-47). -/
def clamp (w h : ℤ) (p : Point) : Point :=
  (max 0 (min p.1 (w - 1)), max 0 (min p.2 (h - 1)))

/-- The playback loop of `move_to` (src/AutoMouse.py lines 122-126) from
waypoint index `n` on: before consuming each waypoint the interrupt flag is
read (oracle `flagAt`, indexed by how many waypoints were consumed so far);
if true the loop breaks, otherwise the clamped position is set and the loop
sleeps for `interval`. -/
def playbackAux (flagAt : ℕ → Bool) (w h : ℤ) (interval : ℚ) :
    ℕ → List Point → List Event
  | _, [] => []
  | i, p :: rest =>
    if flagAt i then []
    else Event.setPos (clamp w h p) :: Event.sleep interval ::
      playbackAux flagAt w h interval (i + 1) rest

/-- The positions actually passed to `SetCursorPos` in a trace, in order. -/
def setPosEvents (es : List Event) : List Point :=
  es.filterMap fun e =>
    match e with
    | Event.setPos p => some p
    | _ => none

/-- The persistent state of an `AutoMouse` instance: the interrupt flag
`_stop_flag` (src/AutoMouse.py line 27). -/
structure MouseState where
  stop_flag : Bool
deriving DecidableEq

/-- State after `__init__` (src/AutoMouse.py lines 25-27). -/
def initState : MouseState := ⟨false⟩

/-- The `stop` method (src/AutoMouse.py lines 169-171). -/
def stop (_s : MouseState) : MouseState := ⟨true⟩

/-- The `reset` method (src/AutoMouse.py lines 173-175). -/
def reset (_s : MouseState) : MouseState := ⟨false⟩

/-- The trace of one `move_to` call (src/AutoMouse.py lines 104-126): the
step count is normalized by `stepsOf`, the interval is `duration / steps`,
the path is human or linear, and the playback loop walks it. `start` is the
cursor position `_get_pos` returned. -/
def moveToTrace (flagAt : ℕ → Bool) (w h : ℤ) (noise : ℚ → ℚ) (offset : ℤ)
    (start : Point) (x y : ℤ) (duration : ℚ) (human : Bool) (fps : ℕ) : List Event :=
  playbackAux flagAt w h (duration / (stepsOf duration fps : ℚ)) 0
    (if human then human_path noise offset start (x, y) (stepsOf duration fps)
     else linear_path start (x, y) (stepsOf duration fps))

/-- The button-to-flag-pair dictionary lookup shared by `click` and `drag`
(src/AutoMouse.py lines 133-137 and 152-156): `none` is the `KeyError`. -/
def buttonPair (button : String) : Option (ℕ × ℕ) :=
  if button = "left" then some (MOUSEEVENTF_LEFTDOWN, MOUSEEVENTF_LEFTUP)
  else if button = "right" then some (MOUSEEVENTF_RIGHTDOWN, MOUSEEVENTF_RIGHTUP)
  else if button = "middle" then some (MOUSEEVENTF_MIDDLEDOWN, MOUSEEVENTF_MIDDLEUP)
  else none

/-- The trace of one `click` call (src/AutoMouse.py lines 129-140), paired
with whether it ended in the dictionary `KeyError`.  The preceding move
happens only when both coordinates are given; it uses the `move_to` defaults
`duration=0.5`, `human=True`, `fps=60`.  `pause` is the value
`random.uniform(0.01, 0.05)` drew. -/
def clickTrace (flagAt : ℕ → Bool) (w h : ℤ) (noise : ℚ → ℚ) (offset : ℤ)
    (start : Point) (x y : Option ℤ) (button : String) (pause : ℚ) :
    List Event × Bool :=
  match buttonPair button with
  | none =>
    (match x, y with
     | some a, some b => moveToTrace flagAt w h noise offset start a b (1 / 2) true 60
     | _, _ => [], true)
  | some (dn, up) =>
    ((match x, y with
      | some a, some b => moveToTrace flagAt w h noise offset start a b (1 / 2) true 60
      | _, _ => []) ++
      [Event.send dn 0, Event.sleep pause, Event.send up 0], false)

/-- The trace of one `drag` call (src/AutoMouse.py lines 149-160), paired
with whether it ended in the dictionary `KeyError`: move to (x1, y1) with the
`move_to` defaults, inject the button-down flag of `button`, sleep the fixed
0.05 s, move to (x2, y2) over `duration` (human-like path), inject
`MOUSEEVENTF_LEFTUP` whatever `button` was.  `start` is the cursor position
before the first move and `mid2` the one `_get_pos` returns before the
second; each move draws its own flag oracle and control-point offset. -/
def dragTrace (flag1 flag2 : ℕ → Bool) (w h : ℤ) (noise : ℚ → ℚ) (o1 o2 : ℤ)
    (start mid2 : Point) (x1 y1 x2 y2 : ℤ) (duration : ℚ) (button : String) :
    List Event × Bool :=
  match buttonPair button with
  | none => (moveToTrace flag1 w h noise o1 start x1 y1 (1 / 2) true 60, true)
  | some (dn, _) =>
    (moveToTrace flag1 w h noise o1 start x1 y1 (1 / 2) true 60 ++
      [Event.send dn 0, Event.sleep (1 / 20)] ++
      moveToTrace flag2 w h noise o2 mid2 x2 y2 duration true 60 ++
      [Event.send MOUSEEVENTF_LEFTUP 0], false)

/-! Helper lemmas about truncation and interpolation. -/

lemma pyTrunc_intCast (n : ℤ) : pyTrunc (n : ℚ) = n := by
  unfold pyTrunc
  rcases le_or_lt 0 ((n : ℚ)) with h | h
  · rw [if_pos h, Int.floor_intCast]
  · rw [if_neg (not_le.2 h), Int.ceil_intCast]

lemma pyTrunc_mono {q r : ℚ} (h : q ≤ r) : pyTrunc q ≤ pyTrunc r := by
  unfold pyTrunc
  rcases le_or_lt 0 q with hq | hq
  · rw [if_pos hq, if_pos (le_trans hq h)]
    exact Int.floor_le_floor h
  · rcases le_or_lt 0 r with hr | hr
    · rw [if_neg (not_le.2 hq), if_pos hr]
      have h1 : ⌈q⌉ ≤ 0 := by
        have := Int.ceil_le_ceil (le_of_lt hq)
        simpa using this
      have h2 : 0 ≤ ⌊r⌋ := Int.floor_nonneg.2 hr
      omega
    · rw [if_neg (not_le.2 hq), if_neg (not_le.2 hr)]
      exact Int.ceil_le_ceil h

lemma pyTrunc_dist (q : ℚ) : |(pyTrunc q : ℚ) - q| < 1 := by
  unfold pyTrunc
  rcases le_or_lt 0 q with h | h
  · rw [if_pos h, abs_lt]
    have h1 := Int.lt_floor_add_one q
    have h2 := Int.floor_le q
    constructor <;> linarith
  · rw [if_neg (not_le.2 h), abs_lt]
    have h1 := Int.le_ceil q
    have h2 := Int.ceil_lt_add_one q
    constructor <;> linarith

lemma pyTrunc_le_intCast {q : ℚ} {n : ℤ} (h : q ≤ (n : ℚ)) : pyTrunc q ≤ n := by
  have h1 := pyTrunc_mono h
  rwa [pyTrunc_intCast] at h1

lemma intCast_le_pyTrunc {q : ℚ} {n : ℤ} (h : (n : ℚ) ≤ q) : n ≤ pyTrunc q := by
  have h1 := pyTrunc_mono h
  rwa [pyTrunc_intCast] at h1

lemma pyTrunc_close {v : ℚ} {a : ℤ} {B : ℕ} (h : |v - (a : ℚ)| ≤ (B : ℚ)) :
    (pyTrunc v - a).natAbs ≤ B := by
  have h1 := pyTrunc_dist v
  have h2 : |((pyTrunc v : ℚ)) - (a : ℚ)| < (B : ℚ) + 1 := by
    have h3 : ((pyTrunc v : ℚ)) - (a : ℚ) = ((pyTrunc v : ℚ) - v) + (v - (a : ℚ)) := by ring
    calc |((pyTrunc v : ℚ)) - (a : ℚ)|
        = |((pyTrunc v : ℚ) - v) + (v - (a : ℚ))| := by rw [h3]
      _ ≤ |(pyTrunc v : ℚ) - v| + |v - (a : ℚ)| := abs_add _ _
      _ < (B : ℚ) + 1 := by linarith
  have h4 : |pyTrunc v - a| < (B : ℤ) + 1 := by exact_mod_cast h2
  have h5 := abs_lt.mp h4
  omega

lemma getD_map_range {α : Type} (f : ℕ → α) {n i : ℕ} (hi : i < n) (d : α) :
    ((List.range n).map f).getD i d = f i := by
  rw [List.getD_eq_getElem?_getD]
  simp [List.getElem?_map, List.getElem?_range, hi]

lemma linVal_zero (s e : ℤ) (steps : ℕ) : linVal s e 0 steps = (s : ℚ) := by
  simp [linVal]

lemma linVal_last (s e : ℤ) {steps : ℕ} (h : steps ≠ 0) :
    linVal s e steps steps = (e : ℚ) := by
  unfold linVal
  have hs : ((steps : ℚ)) ≠ 0 := Nat.cast_ne_zero.2 h
  field_simp

lemma linVal_mono {s e : ℤ} (hse : s ≤ e) {steps i j : ℕ} (hij : i ≤ j)
    (hsteps : 1 ≤ steps) : linVal s e i steps ≤ linVal s e j steps := by
  unfold linVal
  have hc : (0 : ℚ) < (steps : ℚ) := by exact_mod_cast hsteps
  have hiq : ((i : ℚ)) ≤ (j : ℚ) := by exact_mod_cast hij
  have hes : (0 : ℚ) ≤ (e : ℚ) - (s : ℚ) := by
    have := sub_nonneg.2 hse
    exact_mod_cast this
  have h1 : ((e : ℚ) - (s : ℚ)) * (i : ℚ) ≤ ((e : ℚ) - (s : ℚ)) * (j : ℚ) :=
    mul_le_mul_of_nonneg_left hiq hes
  have h2 := div_le_div_of_nonneg_right h1 hc.le
  linarith [h2]

lemma linVal_neg (s e : ℤ) (i steps : ℕ) :
    linVal (-s) (-e) i steps = -linVal s e i steps := by
  unfold linVal
  push_cast
  ring

lemma pyTrunc_neg (q : ℚ) : pyTrunc (-q) = -pyTrunc q := by
  unfold pyTrunc
  rcases lt_trichotomy q 0 with h | h | h
  · rw [if_pos (by linarith), if_neg (not_le.2 h), Int.floor_neg]
  · subst h
    norm_num
  · rw [if_neg (by simpa using h), if_pos (le_of_lt h), Int.ceil_neg]

/-! Claim theorems. -/

/-- C1: for every start, end and steps >= 1 the linear (humanlike=false) plan
has exactly steps+1 points, its first element is start, its last is end, and
waypoint i is the integer truncation of start + (end-start)*i/steps per axis;
in particular plan((0,0),(100,50),10) has 11 points with point 0 = (0,0),
point 10 = (100,50) and point 5 = (50,25). -/
theorem linear_path_spec (s e : Point) (steps : ℕ) (h : 1 ≤ steps) :
    (linear_path s e steps).length = steps + 1 ∧
    (linear_path s e steps).getD 0 (0, 0) = s ∧
    (linear_path s e steps).getD steps (0, 0) = e ∧
    (∀ i, i < steps + 1 → (linear_path s e steps).getD i (0, 0) =
      (pyTrunc (linVal s.1 e.1 i steps), pyTrunc (linVal s.2 e.2 i steps))) ∧
    (linear_path (0, 0) (100, 50) 10).length = 11 ∧
    (linear_path (0, 0) (100, 50) 10).getD 0 (0, 0) = (0, 0) ∧
    (linear_path (0, 0) (100, 50) 10).getD 10 (0, 0) = (100, 50) ∧
    (linear_path (0, 0) (100, 50) 10).getD 5 (0, 0) = (50, 25) := by
  have hlen : ∀ (a b : Point) (n : ℕ), (linear_path a b n).length = n + 1 := by
    intro a b n
    simp [linear_path]
  have hget : ∀ (a b : Point) (n i : ℕ), i < n + 1 →
      (linear_path a b n).getD i (0, 0) =
        (pyTrunc (linVal a.1 b.1 i n), pyTrunc (linVal a.2 b.2 i n)) := by
    intro a b n i hi
    unfold linear_path
    rw [getD_map_range _ hi]
  refine ⟨hlen s e steps, ?_, ?_, fun i hi => hget s e steps i hi, hlen _ _ 10, ?_, ?_, ?_⟩
  · rw [hget s e steps 0 (by omega), linVal_zero, linVal_zero,
      pyTrunc_intCast, pyTrunc_intCast]
  · rw [hget s e steps steps (by omega), linVal_last _ _ (by omega),
      linVal_last _ _ (by omega), pyTrunc_intCast, pyTrunc_intCast]
  · rw [hget (0, 0) (100, 50) 10 0 (by norm_num)]
    norm_num [linVal, pyTrunc]
  · rw [hget (0, 0) (100, 50) 10 10 (by norm_num)]
    norm_num [linVal, pyTrunc]
  · rw [hget (0, 0) (100, 50) 10 5 (by norm_num)]
    norm_num [linVal, pyTrunc]

/-- C1 witness: the theorem applied at the concrete scenario from the spec. -/
theorem linear_path_spec_witness :
    (linear_path (0, 0) (100, 50) 10).getD 5 (0, 0) = (50, 25) :=
  (linear_path_spec (0, 0) (100, 50) 10 (by norm_num)).2.2.2.2.2.2.2

/-- C8: move_to normalizes the step count to max(1, int(duration*fps)), which
is at least 1 and nonzero as a rational, so the interval duration/steps and
the parameter t = i/steps are well-defined divisions, also when duration*fps
truncates to 0. -/
theorem stepsOf_pos (duration : ℚ) (fps : ℕ) (_h : 0 ≤ duration) :
    1 ≤ stepsOf duration fps ∧ ((stepsOf duration fps : ℚ)) ≠ 0 ∧
    duration / (stepsOf duration fps : ℚ) * (stepsOf duration fps : ℚ) = duration := by
  have h1 : 1 ≤ stepsOf duration fps := le_max_left _ _
  have h2 : ((stepsOf duration fps : ℚ)) ≠ 0 := by
    have : stepsOf duration fps ≠ 0 := by omega
    exact_mod_cast Nat.cast_ne_zero.2 this
  exact ⟨h1, h2, div_mul_cancel₀ duration h2⟩

/-- C8 witness: at duration 0 (so int(duration*fps) = 0) the step count is
still clamped to at least 1. -/
theorem stepsOf_pos_witness : 1 ≤ stepsOf 0 60 :=
  (stepsOf_pos 0 60 le_rfl).1

lemma linear_path_getD (s e : Point) {steps i : ℕ} (hi : i < steps + 1) :
    (linear_path s e steps).getD i (0, 0) =
      (pyTrunc (linVal s.1 e.1 i steps), pyTrunc (linVal s.2 e.2 i steps)) := by
  unfold linear_path
  rw [getD_map_range _ hi]

lemma linTrunc_mono_of_le {s e : ℤ} (hse : s ≤ e) {steps i j : ℕ} (hij : i ≤ j)
    (hsteps : 1 ≤ steps) :
    pyTrunc (linVal s e i steps) ≤ pyTrunc (linVal s e j steps) :=
  pyTrunc_mono (linVal_mono hse hij hsteps)

lemma linTrunc_antitone_of_ge {s e : ℤ} (hse : e ≤ s) {steps i j : ℕ} (hij : i ≤ j)
    (hsteps : 1 ≤ steps) :
    pyTrunc (linVal s e j steps) ≤ pyTrunc (linVal s e i steps) := by
  have h1 := linTrunc_mono_of_le (neg_le_neg hse) hij hsteps
  rw [linVal_neg, linVal_neg, pyTrunc_neg, pyTrunc_neg] at h1
  omega

lemma linTrunc_bounds_of_le {s e : ℤ} (hse : s ≤ e) {steps i : ℕ} (hi : i ≤ steps)
    (hsteps : 1 ≤ steps) :
    s ≤ pyTrunc (linVal s e i steps) ∧ pyTrunc (linVal s e i steps) ≤ e := by
  constructor
  · refine intCast_le_pyTrunc ?_
    have h1 := linVal_mono hse (Nat.zero_le i) hsteps
    rwa [linVal_zero] at h1
  · refine pyTrunc_le_intCast ?_
    have h1 := linVal_mono hse hi hsteps
    rwa [linVal_last s e (by omega)] at h1

lemma linTrunc_bounds_of_ge {s e : ℤ} (hse : e ≤ s) {steps i : ℕ} (hi : i ≤ steps)
    (hsteps : 1 ≤ steps) :
    e ≤ pyTrunc (linVal s e i steps) ∧ pyTrunc (linVal s e i steps) ≤ s := by
  have h1 := linTrunc_bounds_of_le (neg_le_neg hse) hi hsteps
  rw [linVal_neg, pyTrunc_neg] at h1
  omega

/-- C7: for every start, end and steps >= 1 the linear (non-human) plan is
monotone per axis toward the target, with no waypoint overshooting either the
start or the target coordinate; waypoint i is the truncated interpolation
value, so this is about the elements of the produced path. -/
theorem linear_path_monotone (s e : Point) (steps : ℕ) (h : 1 ≤ steps) :
    (∀ i j, i ≤ j → j ≤ steps →
      ((s.1 ≤ e.1 → pyTrunc (linVal s.1 e.1 i steps) ≤ pyTrunc (linVal s.1 e.1 j steps)) ∧
       (e.1 ≤ s.1 → pyTrunc (linVal s.1 e.1 j steps) ≤ pyTrunc (linVal s.1 e.1 i steps)) ∧
       (s.2 ≤ e.2 → pyTrunc (linVal s.2 e.2 i steps) ≤ pyTrunc (linVal s.2 e.2 j steps)) ∧
       (e.2 ≤ s.2 → pyTrunc (linVal s.2 e.2 j steps) ≤ pyTrunc (linVal s.2 e.2 i steps)))) ∧
    (∀ i, i ≤ steps →
      ((s.1 ≤ e.1 → s.1 ≤ pyTrunc (linVal s.1 e.1 i steps) ∧
          pyTrunc (linVal s.1 e.1 i steps) ≤ e.1) ∧
       (e.1 ≤ s.1 → e.1 ≤ pyTrunc (linVal s.1 e.1 i steps) ∧
          pyTrunc (linVal s.1 e.1 i steps) ≤ s.1) ∧
       (s.2 ≤ e.2 → s.2 ≤ pyTrunc (linVal s.2 e.2 i steps) ∧
          pyTrunc (linVal s.2 e.2 i steps) ≤ e.2) ∧
       (e.2 ≤ s.2 → e.2 ≤ pyTrunc (linVal s.2 e.2 i steps) ∧
          pyTrunc (linVal s.2 e.2 i steps) ≤ s.2))) ∧
    (∀ i, i < steps + 1 → (linear_path s e steps).getD i (0, 0) =
      (pyTrunc (linVal s.1 e.1 i steps), pyTrunc (linVal s.2 e.2 i steps))) := by
  refine ⟨?_, ?_, fun i hi => linear_path_getD s e hi⟩
  · intro i j hij _hj
    exact ⟨fun hse => linTrunc_mono_of_le hse hij h,
      fun hse => linTrunc_antitone_of_ge hse hij h,
      fun hse => linTrunc_mono_of_le hse hij h,
      fun hse => linTrunc_antitone_of_ge hse hij h⟩
  · intro i hi
    exact ⟨fun hse => linTrunc_bounds_of_le hse hi h,
      fun hse => linTrunc_bounds_of_ge hse hi h,
      fun hse => linTrunc_bounds_of_le hse hi h,
      fun hse => linTrunc_bounds_of_ge hse hi h⟩

/-- C7 witness: the theorem applied at the concrete scenario (0,0) to
(100,50) in 10 steps, waypoints 3 and 7 on the x axis. -/
theorem linear_path_monotone_witness :
    pyTrunc (linVal 0 100 3 10) ≤ pyTrunc (linVal 0 100 7 10) :=
  ((linear_path_monotone (0, 0) (100, 50) 10 (by norm_num)).1 3 7 (by norm_num)
    (by norm_num)).1 (by norm_num)

/-- C5: the noise source is a deterministic function of t (equal inputs give
equal outputs) and its value always lies in [0, 1).  math.sin has no exact
embedding, so the statement holds for every function standing in for sin,
hence for the float sin in exact arithmetic. -/
theorem perlin_det_range (sin : ℚ → ℚ) (x y : ℚ) (hxy : x = y) :
    perlin sin x = perlin sin y ∧ 0 ≤ perlin sin x ∧ perlin sin x < 1 := by
  subst hxy
  refine ⟨rfl, ?_, ?_⟩
  · have h1 := Int.floor_le (sin (x * (129898 / 10000)) * (437585453 / 10000))
    unfold perlin pyMod1
    linarith
  · have h1 := Int.lt_floor_add_one (sin (x * (129898 / 10000)) * (437585453 / 10000))
    unfold perlin pyMod1
    linarith

/-- C5 witness: the range bound at the identity standing in for sin and t = 7. -/
theorem perlin_det_range_witness : 0 ≤ perlin (fun q => q) 7 :=
  (perlin_det_range (fun q => q) 7 7 rfl).2.1

lemma human_path_getD (noise : ℚ → ℚ) (offset : ℤ) (s e : Point) {steps i : ℕ}
    (hi : i < steps + 1) :
    (human_path noise offset s e steps).getD i (0, 0) =
      human_point noise offset s e steps i := by
  unfold human_path
  rw [getD_map_range _ hi]

lemma bez1_zero (a b c d : ℚ) : bez1 a b c d 0 = a := by
  norm_num [bez1]

lemma bez1_one (a b c d : ℚ) : bez1 a b c d 1 = d := by
  norm_num [bez1]

lemma bez1_symm (a o t : ℚ) :
    bez1 a (a + o) (a - o) a t = a + 3 * o * (t * (1 - t) * (1 - 2 * t)) := by
  unfold bez1
  ring

lemma jitter2_bound (noise : ℚ → ℚ) (hn : ∀ q, 0 ≤ noise q ∧ noise q < 1) (t : ℚ) :
    |jitter2 noise t| ≤ 2 := by
  obtain ⟨h0, h1⟩ := hn (t * 100)
  rw [jitter2, abs_le]
  constructor <;> linarith

lemma human_point_zero (noise : ℚ → ℚ) (offset : ℤ) (s e : Point) (steps : ℕ) :
    human_point noise offset s e steps 0 =
      (pyTrunc ((s.1 : ℚ) + jitter2 noise 0), pyTrunc ((s.2 : ℚ) + jitter2 noise 0)) := by
  unfold human_point
  norm_num [bez1_zero]

lemma human_point_last (noise : ℚ → ℚ) (offset : ℤ) (s e : Point) {steps : ℕ}
    (h : steps ≠ 0) :
    human_point noise offset s e steps steps =
      (pyTrunc ((e.1 : ℚ) + jitter2 noise 1), pyTrunc ((e.2 : ℚ) + jitter2 noise 1)) := by
  unfold human_point
  have hs : ((steps : ℚ)) ≠ 0 := Nat.cast_ne_zero.2 h
  rw [div_self hs, bez1_one, bez1_one]

lemma pyTrunc_jitter_close (noise : ℚ → ℚ) (hn : ∀ q, 0 ≤ noise q ∧ noise q < 1)
    (a : ℤ) (t : ℚ) : (pyTrunc ((a : ℚ) + jitter2 noise t) - a).natAbs ≤ 2 := by
  refine pyTrunc_close ?_
  have h1 := jitter2_bound noise hn t
  have h2 : (a : ℚ) + jitter2 noise t - (a : ℚ) = jitter2 noise t := by ring
  rw [h2]
  exact_mod_cast h1

/-- C2 counterexample: the claim says the first element of the human-like plan
equals start up to at most 1 unit per axis, for every jitter value.  With
the jitter the code actually produces at t = 0 (noise value 0, since
sin 0 = 0 exactly), the first waypoint of the plan from (0,0) to (10,10) with
1 step and control-point offset 0 is (-2,-2), which is 2 > 1 away per axis. -/
theorem human_path_first_cex :
    (human_path noiseZero 0 (0, 0) (10, 10) 1).getD 0 (0, 0) = (-2, -2) ∧
    ¬((((-2 : ℤ)) - 0).natAbs ≤ 1) := by
  constructor
  · rw [human_path_getD _ _ _ _ (by norm_num)]
    unfold human_point midOf jitter2 noiseZero
    norm_num [bez1, pyTrunc]
    have h2 : ((-2 : ℚ)) = (((-2 : ℤ) : ℚ)) := by norm_num
    rw [h2, Int.ceil_intCast]
  · decide

/-- C2 (amended): for every start, end, steps >= 1, every control-point
offset and every noise function with values in [0, 1), the human-like plan
has length steps+1, its first element is within 2 units per axis of start and
its last element is within 2 units per axis of end.  (The 1-unit bound of
the claim fails: the jitter displacement ranges over [-2, 2).) -/
theorem human_path_endpoints (noise : ℚ → ℚ) (offset : ℤ) (s e : Point) (steps : ℕ)
    (hn : ∀ q, 0 ≤ noise q ∧ noise q < 1) (h : 1 ≤ steps) :
    (human_path noise offset s e steps).length = steps + 1 ∧
    (((human_path noise offset s e steps).getD 0 (0, 0)).1 - s.1).natAbs ≤ 2 ∧
    (((human_path noise offset s e steps).getD 0 (0, 0)).2 - s.2).natAbs ≤ 2 ∧
    (((human_path noise offset s e steps).getD steps (0, 0)).1 - e.1).natAbs ≤ 2 ∧
    (((human_path noise offset s e steps).getD steps (0, 0)).2 - e.2).natAbs ≤ 2 := by
  refine ⟨by simp [human_path], ?_, ?_, ?_, ?_⟩
  · rw [human_path_getD _ _ _ _ (by omega), human_point_zero]
    exact pyTrunc_jitter_close noise hn s.1 0
  · rw [human_path_getD _ _ _ _ (by omega), human_point_zero]
    exact pyTrunc_jitter_close noise hn s.2 0
  · rw [human_path_getD _ _ _ _ (by omega), human_point_last _ _ _ _ (by omega)]
    exact pyTrunc_jitter_close noise hn e.1 1
  · rw [human_path_getD _ _ _ _ (by omega), human_point_last _ _ _ _ (by omega)]
    exact pyTrunc_jitter_close noise hn e.2 1

/-- C2 witness: the amended endpoint bound at a concrete plan. -/
theorem human_path_endpoints_witness :
    (human_path noiseHalf 0 (0, 0) (10, 10) 1).length = 1 + 1 :=
  (human_path_endpoints noiseHalf 0 (0, 0) (10, 10) 1
    (fun q => by norm_num [noiseHalf]) (by norm_num)).1

lemma midOf_self (s : Point) : midOf s s = s := by
  unfold midOf
  have h1 : Int.fdiv (s.1 + s.1) 2 = s.1 := by
    rw [Int.fdiv_eq_ediv _ (by norm_num)]
    omega
  have h2 : Int.fdiv (s.2 + s.2) 2 = s.2 := by
    rw [Int.fdiv_eq_ediv _ (by norm_num)]
    omega
  rw [h1, h2]

lemma cubic_bound {t : ℚ} (h0 : 0 ≤ t) (h1 : t ≤ 1) :
    |t * (1 - t) * (1 - 2 * t)| ≤ 1 / 10 := by
  rw [abs_le]
  constructor
  · nlinarith [mul_nonneg h0 (sq_nonneg (2 * t - 8 / 5)), sq_nonneg (t - 7 / 10)]
  · nlinarith [mul_nonneg (by linarith : (0 : ℚ) ≤ 1 - t) (sq_nonneg (2 / 5 - 2 * t)),
      sq_nonneg (t - 3 / 10)]

lemma stationary_coord_bound {noise : ℚ → ℚ} (hn : ∀ q, 0 ≤ noise q ∧ noise q < 1)
    {offset : ℤ} (ho : offset.natAbs ≤ 30) (a : ℤ) {t : ℚ} (h0 : 0 ≤ t) (h1 : t ≤ 1) :
    (pyTrunc (bez1 (a : ℚ) ((a : ℚ) + (offset : ℚ)) ((a : ℚ) - (offset : ℚ)) (a : ℚ) t +
      jitter2 noise t) - a).natAbs ≤ 11 := by
  rw [bez1_symm]
  refine pyTrunc_close ?_
  have hg := cubic_bound h0 h1
  have hj := jitter2_bound noise hn t
  have hoz : -30 ≤ offset ∧ offset ≤ 30 := by omega
  have hoq : |(offset : ℚ)| ≤ 30 := by
    rw [abs_le]
    refine ⟨?_, ?_⟩
    · exact_mod_cast hoz.1
    · exact_mod_cast hoz.2
  have h2 : (a : ℚ) + 3 * (offset : ℚ) * (t * (1 - t) * (1 - 2 * t)) +
      jitter2 noise t - (a : ℚ) =
      3 * (offset : ℚ) * (t * (1 - t) * (1 - 2 * t)) + jitter2 noise t := by ring
  rw [h2]
  have h3 : |3 * (offset : ℚ) * (t * (1 - t) * (1 - 2 * t)) + jitter2 noise t| ≤
      |3 * (offset : ℚ) * (t * (1 - t) * (1 - 2 * t))| + |jitter2 noise t| := abs_add _ _
  have h4 : |3 * (offset : ℚ) * (t * (1 - t) * (1 - 2 * t))| =
      3 * |(offset : ℚ)| * |t * (1 - t) * (1 - 2 * t)| := by
    rw [abs_mul, abs_mul]
    norm_num
  have h5 : |(offset : ℚ)| * |t * (1 - t) * (1 - 2 * t)| ≤ 30 * (1 / 10) :=
    mul_le_mul hoq hg (abs_nonneg _) (by norm_num)
  have h6 : ((11 : ℕ) : ℚ) = 11 := by norm_num
  rw [h6]
  calc |3 * (offset : ℚ) * (t * (1 - t) * (1 - 2 * t)) + jitter2 noise t|
      ≤ 3 * |(offset : ℚ)| * |t * (1 - t) * (1 - 2 * t)| + |jitter2 noise t| := by
        rw [← h4]; exact h3
    _ ≤ 3 * (30 * (1 / 10)) + 2 := by
        have h7 : 3 * |(offset : ℚ)| * |t * (1 - t) * (1 - 2 * t)| =
            3 * (|(offset : ℚ)| * |t * (1 - t) * (1 - 2 * t)|) := by ring
        rw [h7]
        linarith
    _ ≤ 11 := by norm_num

/-- C3 counterexample: the claim says every element of the human-like plan
with start = end stays within ~2 pixels of start for every control-point
offset in [-30, 30].  With offset 30 and noise constantly 1/2 (a value in
the range of the noise source, making the jitter 0), waypoint 1 of the
4-step plan from (0,0) to (0,0) sits at (8,8): 8 > 2 pixels away.  The
bend comes from the Bezier control points, which jitter cannot cancel. -/
theorem human_path_stationary_cex :
    (human_path noiseHalf 30 (0, 0) (0, 0) 4).getD 1 (0, 0) = (8, 8) ∧
    ¬(((8 : ℤ) - 0).natAbs ≤ 2) := by
  constructor
  · rw [human_path_getD _ _ _ _ (by norm_num)]
    unfold human_point jitter2 noiseHalf
    rw [midOf_self]
    norm_num [bez1, pyTrunc]
  · decide

/-- C3 (amended): for the human-like plan with start = end, every element
deviates from start by at most 11 pixels per axis (3 * |offset| * 1/10 from
the symmetric control points, at most 9 for |offset| <= 30, plus 2 of
jitter), for every noise function with values in [0, 1); a deviation of 8
pixels is reached, so the 2-pixel bound of the claim is false but nearby
elements do stay within this larger bound. -/
theorem human_path_stationary_bound (noise : ℚ → ℚ) (offset : ℤ) (s : Point)
    (steps i : ℕ) (hn : ∀ q, 0 ≤ noise q ∧ noise q < 1) (ho : offset.natAbs ≤ 30)
    (h : 1 ≤ steps) (hi : i < steps + 1) :
    (((human_path noise offset s s steps).getD i (0, 0)).1 - s.1).natAbs ≤ 11 ∧
    (((human_path noise offset s s steps).getD i (0, 0)).2 - s.2).natAbs ≤ 11 := by
  rw [human_path_getD _ _ _ _ hi]
  unfold human_point
  rw [midOf_self]
  have ht0 : 0 ≤ (i : ℚ) / (steps : ℚ) := by positivity
  have hsq : (0 : ℚ) < (steps : ℚ) := by exact_mod_cast h
  have ht1 : (i : ℚ) / (steps : ℚ) ≤ 1 := by
    rw [div_le_one hsq]
    exact_mod_cast (by omega : i ≤ steps)
  constructor
  · have h1 := stationary_coord_bound hn ho s.1 ht0 ht1
    push_cast
    push_cast at h1
    exact h1
  · have h1 := stationary_coord_bound hn ho s.2 ht0 ht1
    push_cast
    push_cast at h1
    exact h1

/-- C3 witness: the amended bound at a concrete stationary plan. -/
theorem human_path_stationary_bound_witness :
    (((human_path noiseHalf 30 (0, 0) (0, 0) 4).getD 1 (0, 0)).1 - 0).natAbs ≤ 11 :=
  (human_path_stationary_bound noiseHalf 30 (0, 0) 4 1
    (fun q => by norm_num [noiseHalf]) (by decide) (by norm_num) (by norm_num)).1

lemma setPosEvents_nil : setPosEvents [] = [] := rfl

lemma setPosEvents_cons_setPos (p : Point) (es : List Event) :
    setPosEvents (Event.setPos p :: es) = p :: setPosEvents es := rfl

lemma setPosEvents_cons_sleep (q : ℚ) (es : List Event) :
    setPosEvents (Event.sleep q :: es) = setPosEvents es := rfl

lemma playbackAux_take (flagAt : ℕ → Bool) (w h : ℤ) (interval : ℚ) :
    ∀ (l : List Point) (n k : ℕ), (∀ i, i < k → flagAt (n + i) = false) →
      (k < l.length → flagAt (n + k) = true) → k ≤ l.length →
      setPosEvents (playbackAux flagAt w h interval n l) =
        (l.take k).map (clamp w h) := by
  intro l
  induction l with
  | nil =>
    intro n k _ _ hk
    simp only [List.length_nil, Nat.le_zero] at hk
    subst hk
    rfl
  | cons p rest ih =>
    intro n k hf ht hk
    cases k with
    | zero =>
      have h1 : flagAt n = true := by
        have := ht (by simp)
        simpa using this
      unfold playbackAux
      rw [if_pos h1]
      rfl
    | succ m =>
      have h0 : flagAt n = false := by
        have := hf 0 (by omega)
        simpa using this
      unfold playbackAux
      rw [if_neg (by simp [h0])]
      rw [setPosEvents_cons_setPos, setPosEvents_cons_sleep]
      have h2 := ih (n + 1) m
        (fun i hi => by
          have := hf (i + 1) (by omega)
          rwa [show n + (i + 1) = n + 1 + i by omega] at this)
        (fun hm => by
          have := ht (by simpa using Nat.succ_lt_succ hm)
          rwa [show n + (m + 1) = n + 1 + m by omega] at this)
        (by simpa using Nat.le_of_succ_le_succ (by simpa using hk))
      rw [h2]
      simp [List.take_succ_cons]

/-- C4: during playback the interrupt flag is read once per waypoint, before
the position is set.  If the observed flag values are false for the first k
reads and true at read k (k < steps+1 = path length), playback performs
exactly k position sets, namely the first k waypoints clamped, and consumes
no further waypoint.  The flag is cleared at construction, set by stop,
cleared by reset, and a playback that follows a reset (all reads false) runs
to completion, setting every waypoint. -/
theorem playback_interrupt (flagAt : ℕ → Bool) (w h : ℤ) (interval : ℚ)
    (path : List Point) (k : ℕ) (s : MouseState)
    (hf : ∀ i, i < k → flagAt i = false) (ht : flagAt k = true)
    (hk : k < path.length) :
    setPosEvents (playbackAux flagAt w h interval 0 path) =
      (path.take k).map (clamp w h) ∧
    (setPosEvents (playbackAux flagAt w h interval 0 path)).length = k ∧
    initState.stop_flag = false ∧
    (stop s).stop_flag = true ∧
    (reset s).stop_flag = false ∧
    setPosEvents (playbackAux (fun _ => (reset s).stop_flag) w h interval 0 path) =
      path.map (clamp w h) ∧
    (setPosEvents (playbackAux (fun _ => (reset s).stop_flag) w h interval 0 path)).length =
      path.length := by
  have hmain := playbackAux_take flagAt w h interval path 0 k
    (fun i hi => by simpa using hf i hi)
    (fun _ => by simpa using ht) (le_of_lt hk)
  have hfull := playbackAux_take (fun _ => (reset s).stop_flag) w h interval
    path 0 path.length
    (fun i _ => rfl) (fun hlt => absurd hlt (lt_irrefl _)) le_rfl
  rw [List.take_length] at hfull
  refine ⟨hmain, ?_, rfl, rfl, rfl, hfull, ?_⟩
  · rw [hmain, List.length_map, List.length_take]
    omega
  · rw [hfull, List.length_map]

/-- C4 witness: a flag oracle that turns true at the third read stops a
3-waypoint playback after exactly 2 position sets. -/
theorem playback_interrupt_witness :
    (setPosEvents (playbackAux (fun i => decide (2 ≤ i)) 100 100 0 0
      [(0, 0), (5, 5), (7, 7)])).length = 2 :=
  (playback_interrupt (fun i => decide (2 ≤ i)) 100 100 0
    [(0, 0), (5, 5), (7, 7)] 2 ⟨true⟩
    (fun i hi => by
      interval_cases i <;> rfl)
    (by rfl) (by norm_num)).2.1

/-- C6: drag with any of the three buttons produces, in order: the move to
(x1,y1), the matching button-down injection, the fixed 50 ms (1/20 s) sleep,
the human-like move to (x2,y2) over the requested duration, then a left
button-up injection regardless of the button that went down. -/
theorem drag_trace_spec (flag1 flag2 : ℕ → Bool) (w h : ℤ) (noise : ℚ → ℚ)
    (o1 o2 : ℤ) (start mid2 : Point) (x1 y1 x2 y2 : ℤ) (duration : ℚ)
    (button : String) (dn up : ℕ) (hb : buttonPair button = some (dn, up)) :
    dragTrace flag1 flag2 w h noise o1 o2 start mid2 x1 y1 x2 y2 duration button =
      (moveToTrace flag1 w h noise o1 start x1 y1 (1 / 2) true 60 ++
        [Event.send dn 0, Event.sleep (1 / 20)] ++
        moveToTrace flag2 w h noise o2 mid2 x2 y2 duration true 60 ++
        [Event.send MOUSEEVENTF_LEFTUP 0], false) ∧
    (button = "left" → dn = MOUSEEVENTF_LEFTDOWN ∧ up = MOUSEEVENTF_LEFTUP) ∧
    (button = "right" → dn = MOUSEEVENTF_RIGHTDOWN ∧ up = MOUSEEVENTF_RIGHTUP) ∧
    (button = "middle" → dn = MOUSEEVENTF_MIDDLEDOWN ∧ up = MOUSEEVENTF_MIDDLEUP) := by
  refine ⟨?_, ?_, ?_, ?_⟩
  · unfold dragTrace
    rw [hb]
  · intro hbl
    subst hbl
    simp [buttonPair] at hb
    exact ⟨hb.1.symm, hb.2.symm⟩
  · intro hbl
    subst hbl
    simp [buttonPair] at hb
    exact ⟨hb.1.symm, hb.2.symm⟩
  · intro hbl
    subst hbl
    simp [buttonPair] at hb
    exact ⟨hb.1.symm, hb.2.symm⟩

/-- C6 witness: the drag trace at a concrete right-button call. -/
theorem drag_trace_spec_witness :
    dragTrace (fun _ => false) (fun _ => false) 1920 1080 noiseZero 0 0 (0, 0) (0, 0)
        0 0 10 10 (1 / 10) "right" =
      (moveToTrace (fun _ => false) 1920 1080 noiseZero 0 (0, 0) 0 0 (1 / 2) true 60 ++
        [Event.send MOUSEEVENTF_RIGHTDOWN 0, Event.sleep (1 / 20)] ++
        moveToTrace (fun _ => false) 1920 1080 noiseZero 0 (0, 0) 10 10 (1 / 10) true 60 ++
        [Event.send MOUSEEVENTF_LEFTUP 0], false) :=
  (drag_trace_spec (fun _ => false) (fun _ => false) 1920 1080 noiseZero 0 0 (0, 0)
    (0, 0) 0 0 10 10 (1 / 10) "right" MOUSEEVENTF_RIGHTDOWN MOUSEEVENTF_RIGHTUP
    (by simp [buttonPair])).1

/-- C9: click moves first only when both coordinates are given: with exactly
one coordinate present (the other None) the trace is identical to click with
no point at all, no position is ever set, and for the default left button
the whole trace is the down injection, the randomized pause, then the up
injection of the same button. -/
theorem click_partial_point (flagAt : ℕ → Bool) (w h : ℤ) (noise : ℚ → ℚ)
    (offset : ℤ) (start : Point) (a b : ℤ) (button : String) (pause : ℚ) :
    clickTrace flagAt w h noise offset start (some a) none button pause =
      clickTrace flagAt w h noise offset start none none button pause ∧
    clickTrace flagAt w h noise offset start none (some b) button pause =
      clickTrace flagAt w h noise offset start none none button pause ∧
    setPosEvents (clickTrace flagAt w h noise offset start (some a) none button pause).1 =
      [] ∧
    clickTrace flagAt w h noise offset start none none "left" pause =
      ([Event.send MOUSEEVENTF_LEFTDOWN 0, Event.sleep pause,
        Event.send MOUSEEVENTF_LEFTUP 0], false) := by
  refine ⟨?_, ?_, ?_, ?_⟩
  · unfold clickTrace
    cases hbp : buttonPair button with
    | none => rfl
    | some v => rfl
  · unfold clickTrace
    cases hbp : buttonPair button with
    | none => rfl
    | some v => rfl
  · unfold clickTrace
    cases hbp : buttonPair button with
    | none => rfl
    | some v =>
      obtain ⟨dn, up⟩ := v
      simp [setPosEvents]
  · unfold clickTrace
    simp [buttonPair]

/-- C10: click with no point and a button string outside left, right and
middle fails with the dictionary KeyError before any input event is
injected: the emitted trace is empty and the error marker is set. -/
theorem click_unknown_button (flagAt : ℕ → Bool) (w h : ℤ) (noise : ℚ → ℚ)
    (offset : ℤ) (start : Point) (pause : ℚ) (button : String)
    (h1 : button ≠ "left") (h2 : button ≠ "right") (h3 : button ≠ "middle") :
    clickTrace flagAt w h noise offset start none none button pause = ([], true) := by
  unfold clickTrace buttonPair
  rw [if_neg h1, if_neg h2, if_neg h3]

/-- C10 witness: a concrete unknown button injects nothing and errors. -/
theorem click_unknown_button_witness :
    clickTrace (fun _ => false) 1920 1080 noiseZero 0 (0, 0) none none "wheel" 0 =
      ([], true) :=
  click_unknown_button (fun _ => false) 1920 1080 noiseZero 0 (0, 0) 0 "wheel"
    (by decide) (by decide) (by decide)

end AutoMouse
